import Mathlib

/-!
# Verification of `ardnew/version` (version.go)

A shallow embedding of the Go package `version`:
* the semantic-version validator/parser `Parse` (built on the anchored
  regular expression `VersionPattern`),
* the package-state operations `Set` / `IsSet` / `String`,
* the permissive date parser `ParseDate` (with the relevant subset of Go's
  `time.Parse` layout machinery),
* the change-entry formatter `Change.String`.

Machine integers: Go `uint` is 64 bits on the reference platform; overflow of
`fmt.Sscanf` with `%d` leaves the destination at its zero value, which the
embedding makes explicit.
-/

set_option maxRecDepth 16384

namespace Version

/-! ## Character classes of `VersionPattern`

`VersionPattern` is the anchored semver 2.0.0 regex
`^(0|[1-9]\d*)\.(0|[1-9]\d*)\.(0|[1-9]\d*)`
`(?:-((?:0|[1-9]\d*|\d*[a-zA-Z-][0-9a-zA-Z-]*)(?:\.(?:0|[1-9]\d*|\d*[a-zA-Z-][0-9a-zA-Z-]*))*))?`
`(?:\+([0-9a-zA-Z-]+(?:\.[0-9a-zA-Z-]+)*))?$`.
`\d` in Go regexp is `[0-9]`, i.e. `Char.isDigit`; `[a-zA-Z]` is `Char.isAlpha`.
-/

/-- `\d`, i.e. `[0-9]` (codepoints 48–57). -/
def isDigitB (c : Char) : Bool := 48 ≤ c.toNat && c.toNat ≤ 57

/-- `[1-9]` (codepoints 49–57). -/
def digit19 (c : Char) : Bool := 49 ≤ c.toNat && c.toNat ≤ 57

/-- `[a-zA-Z]` (codepoints 65–90 and 97–122). -/
def isAlphaB (c : Char) : Bool :=
  (65 ≤ c.toNat && c.toNat ≤ 90) || (97 ≤ c.toNat && c.toNat ≤ 122)

/-- `[0-9a-zA-Z-]`, the identifier alphabet of prerelease and build metadata. -/
def identChar (c : Char) : Bool := isDigitB c || isAlphaB c || c = '-'

/-- `0|[1-9]\d*`: a numeral with no superfluous leading zero. -/
def numCoreB : List Char → Bool
  | [] => false
  | c :: cs => (c = '0' && cs.isEmpty) || (digit19 c && cs.all isDigitB)

/-- One dot-free prerelease identifier: `0|[1-9]\d*|\d*[a-zA-Z-][0-9a-zA-Z-]*`.
Equivalently: non-empty, drawn from the identifier alphabet, and if it is all
digits it has no superfluous leading zero (a string over the alphabet that
contains a non-digit always matches the third alternative). -/
def preIdentB (cs : List Char) : Bool :=
  !cs.isEmpty && cs.all identChar && (!cs.all isDigitB || numCoreB cs)

/-- One dot-free build-metadata identifier: `[0-9a-zA-Z-]+`. -/
def metaIdentB (cs : List Char) : Bool :=
  !cs.isEmpty && cs.all identChar

/-- Split a character list at every occurrence of `sep` (the separating `\.`
of the regex); never returns the empty list of groups. -/
def splitOnChar (sep : Char) : List Char → List (List Char)
  | [] => [[]]
  | c :: cs =>
    match splitOnChar sep cs with
    | [] => [[c]]
    | g :: gs => if c = sep then [] :: g :: gs else (c :: g) :: gs

/-- The whole prerelease capture group: dot-separated prerelease identifiers. -/
def preOkB (cs : List Char) : Bool := (splitOnChar '.' cs).all preIdentB

/-- The whole build-metadata capture group: dot-separated metadata identifiers. -/
def metaOkB (cs : List Char) : Bool := (splitOnChar '.' cs).all metaIdentB

/-! ## The anchored regex match with captures

`regexp.MustCompile(VersionPattern).FindStringSubmatch` on the anchored
pattern either matches the whole string, yielding the five capture groups
(groups 4 and 5 empty when absent), or yields no match.  The pattern is
deterministic on its input: the three numerals are maximal digit runs (a
shorter run would have to be followed by `.`, `-`, `+` or the end, never by a
digit), the prerelease group extends from `-` to the first `+` or the end
(its alphabet contains neither `+` nor a second unescaped meaning for `.`
beyond separating identifiers), and the metadata group is everything after
the first `+`. -/

/-- Match `0|[1-9]\d*` at the head of the input, returning the numeral and the
rest.  After a leading `0` the regex alternation offers no other option, and
after a `[1-9]` the digit run is maximal. -/
def parseNum : List Char → Option (List Char × List Char)
  | [] => none
  | c :: cs =>
    if c = '0' then some ([c], cs)
    else if digit19 c then
      some (c :: cs.takeWhile isDigitB, cs.dropWhile isDigitB)
    else none

/-- Match a literal character at the head of the input. -/
def expectChar (a : Char) : List Char → Option (List Char)
  | [] => none
  | c :: cs => if c = a then some cs else none

/-- Match the optional `(?:-(pre))?` group: if the input starts with `-`, the
capture runs to the first `+` or the end and must be a valid dot-separated
identifier list; otherwise the group is absent. -/
def parsePre (cs : List Char) : Option (Option (List Char) × List Char) :=
  match cs with
  | '-' :: rest =>
    if preOkB (rest.takeWhile (fun c => c ≠ '+')) then
      some (some (rest.takeWhile (fun c => c ≠ '+')),
        rest.dropWhile (fun c => c ≠ '+'))
    else none
  | _ => some (none, cs)

/-- Match the optional `(?:\+(meta))?$` group against the remaining input,
which must then be exhausted. -/
def parseMeta (cs : List Char) : Option (Option (List Char)) :=
  match cs with
  | [] => some none
  | '+' :: rest => if metaOkB rest then some (some rest) else none
  | _ => none

/-- The five capture groups of `VersionPattern` (groups 4 and 5 are the empty
string when the corresponding optional group did not participate, exactly as
`FindStringSubmatch` reports them). -/
structure Captures where
  maj : List Char
  min : List Char
  pat : List Char
  pre : List Char
  meta : List Char
  deriving Repr, DecidableEq

/-- `re.FindStringSubmatch(version)` for the anchored `VersionPattern`:
`none` models "no match" (`len(sub) == 0`). -/
def findSubmatch (s : String) : Option Captures :=
  match parseNum s.data with
  | none => none
  | some (maj, r1) =>
  match expectChar '.' r1 with
  | none => none
  | some r2 =>
  match parseNum r2 with
  | none => none
  | some (mn, r3) =>
  match expectChar '.' r3 with
  | none => none
  | some r4 =>
  match parseNum r4 with
  | none => none
  | some (pat, r5) =>
  match parsePre r5 with
  | none => none
  | some (pre, r6) =>
  match parseMeta r6 with
  | none => none
  | some meta => some ⟨maj, mn, pat, pre.getD [], meta.getD []⟩

/-! ## The grammar as a predicate

"Accepted by the semver grammar" — the language of `VersionPattern`,
stated as the existence of a decomposition of the string into the regex's
constituent parts. -/

/-- The optional suffix groups as they occur in the matched string. -/
def preOptChars : Option (List Char) → List Char
  | none => []
  | some p => '-' :: p

def metaOptChars : Option (List Char) → List Char
  | none => []
  | some m => '+' :: m

/-- The string belongs to the language of `VersionPattern`. -/
def SemverAccepts (s : String) : Prop :=
  ∃ (maj mn pat : List Char) (pre meta : Option (List Char)),
    numCoreB maj = true ∧ numCoreB mn = true ∧ numCoreB pat = true ∧
    (∀ p ∈ pre, preOkB p = true) ∧
    (∀ m ∈ meta, metaOkB m = true) ∧
    s.data = maj ++ '.' :: mn ++ '.' :: pat ++ preOptChars pre ++ metaOptChars meta

/-! ## `Parse`, `Set`, `IsSet`, `String` -/

/-- Decimal value of a digit string, `fmt.Sscanf`'s reading of an all-digit
token before the width check. -/
def natOfDigits (cs : List Char) : Nat :=
  cs.foldl (fun a c => 10 * a + (c.toNat - 48)) 0

/-- `fmt.Sscanf(tok, "%d", &u)` for `u` of Go type `uint` (64 bits): on
overflow `Sscanf` reports an error which `Parse` ignores, leaving the
destination at its zero value. -/
def sscanfUint (cs : List Char) : Nat :=
  let n := natOfDigits cs
  if n < 2 ^ 64 then n else 0

/-- The five components extracted by `Parse` (Go returns them as a tuple;
the global `Version` struct holds the same five fields). -/
structure SemVer where
  major : Nat
  minor : Nat
  patch : Nat
  prerelease : String
  metadata : String
  deriving Repr, DecidableEq

/-- `Parse(version)`: validate against `VersionPattern` and return the five
components.  `none` models the `panic("invalid version: ...")` branch. -/
def Parse (version : String) : Option SemVer :=
  (findSubmatch version).map fun c =>
    ⟨sscanfUint c.maj, sscanfUint c.min, sscanfUint c.pat,
      ⟨c.pre⟩, ⟨c.meta⟩⟩

/-- Go `strconv`-style decimal rendering (the `%d` verb), digit accumulator.
The first argument is fuel, consumed once per digit; every use supplies at
least `n` units, which never runs out since a number has at most as many
digits as its value. -/
def decimalAux : Nat → Nat → List Char → List Char
  | _, 0, acc => acc
  | 0, _ + 1, acc => acc
  | fuel + 1, n + 1, acc =>
    decimalAux fuel ((n + 1) / 10) (Char.ofNat (48 + (n + 1) % 10) :: acc)

/-- `%d` of a Go `uint`. -/
def decimal (n : Nat) : String :=
  if n = 0 then "0" else ⟨decimalAux n n []⟩

/-- The canonical renderer, the closure `str` inside `String()`:
`"%d.%d.%d"` followed by `-prerelease` when non-empty and `+metadata` when
non-empty. -/
def renderSemVer (v : SemVer) : String :=
  decimal v.major ++ "." ++ decimal v.minor ++ "." ++ decimal v.patch ++
  (if v.prerelease ≠ "" then "-" ++ v.prerelease else "") ++
  (if v.metadata ≠ "" then "+" ++ v.metadata else "")

/-- The package-level `Version` struct. -/
structure VState where
  Major : Nat
  Minor : Nat
  Patch : Nat
  Prerelease : String
  Metadata : String
  deriving Repr, DecidableEq

/-- `Set(version)`: `Parse` and overwrite the five fields (panic = `none`). -/
def Set (version : String) : Option VState :=
  (Parse version).map fun v =>
    ⟨v.major, v.minor, v.patch, v.prerelease, v.metadata⟩

/-- `IsSet()`: some field differs from its zero value. -/
def IsSet (v : VState) : Bool :=
  v.Major != 0 || v.Minor != 0 || v.Patch != 0 ||
  v.Prerelease != "" || v.Metadata != ""

/-- One entry of the package `ChangeLog`. -/
structure Change where
  Package : String
  Version : String
  Title : String
  Date : String
  Description : List String
  deriving Repr, DecidableEq

/-- `String()` of the package: the rendered current version.  The function
reads the `Version` singleton and `ChangeLog` and writes neither, so the
embedding returns the (unchanged) singleton alongside the result; `none`
models the panic raised by `Parse` on the last entry's version string. -/
def VersionString (v : VState) (log : List Change) : Option (String × VState) :=
  if IsSet v then
    some (renderSemVer ⟨v.Major, v.Minor, v.Patch, v.Prerelease, v.Metadata⟩, v)
  else
    match log.getLast? with
    | some c => (Parse c.Version).map fun w => (renderSemVer w, v)
    | none => some ("", v)

/-! ## Facts about digits and decimal rendering -/

theorem digit19_isDigit {c : Char} (h : digit19 c = true) : isDigitB c = true := by
  simp only [digit19, Bool.and_eq_true, decide_eq_true_eq] at h
  simp only [isDigitB, Bool.and_eq_true, decide_eq_true_eq]
  omega

theorem digit19_ne_zero {c : Char} (h : digit19 c = true) : c ≠ '0' := by
  rintro rfl; exact absurd h (by decide)

theorem isDigit_toNat {c : Char} (h : isDigitB c = true) :
    48 ≤ c.toNat ∧ c.toNat ≤ 57 := by
  simp only [isDigitB, Bool.and_eq_true, decide_eq_true_eq] at h
  exact ⟨h.1, h.2⟩

theorem digit19_toNat {c : Char} (h : digit19 c = true) :
    49 ≤ c.toNat ∧ c.toNat ≤ 57 := by
  simp only [digit19, Bool.and_eq_true, decide_eq_true_eq] at h
  exact ⟨h.1, h.2⟩

theorem ofNat_digit_toNat {c : Char} (h : isDigitB c = true) :
    Char.ofNat (48 + (c.toNat - 48)) = c := by
  have h48 := (isDigit_toNat h).1
  rw [Nat.add_sub_cancel' h48, Char.ofNat_toNat]

/-- Accumulating one more digit never decreases `natOfDigits`' accumulator. -/
theorem natOfDigits_foldl_le (l : List Char) :
    ∀ a : Nat, a ≤ l.foldl (fun a c => 10 * a + (c.toNat - 48)) a := by
  induction l with
  | nil => intro a; exact le_refl a
  | cons c cs ih =>
    intro a
    calc a ≤ 10 * a + (c.toNat - 48) := by omega
    _ ≤ _ := ih _

theorem natOfDigits_pos {c : Char} {cs : List Char} (h : digit19 c = true) :
    1 ≤ natOfDigits (c :: cs) := by
  have h1 := (digit19_toNat h).1
  have : (1 : Nat) ≤ c.toNat - 48 := by omega
  calc (1 : Nat) ≤ c.toNat - 48 := this
  _ ≤ _ := by
    simpa [natOfDigits] using natOfDigits_foldl_le cs (c.toNat - 48)

theorem natOfDigits_snoc (ds : List Char) (c : Char) :
    natOfDigits (ds ++ [c]) = 10 * natOfDigits ds + (c.toNat - 48) := by
  simp [natOfDigits, List.foldl_append]

theorem decimalAux_zero (fuel : Nat) (acc : List Char) :
    decimalAux fuel 0 acc = acc := by cases fuel <;> rfl

theorem decimalAux_of_pos {fuel n : Nat} (hf : fuel ≠ 0) (hn : n ≠ 0)
    (acc : List Char) :
    decimalAux fuel n acc
      = decimalAux (fuel - 1) (n / 10) (Char.ofNat (48 + n % 10) :: acc) := by
  obtain ⟨f, rfl⟩ := Nat.exists_eq_succ_of_ne_zero hf
  obtain ⟨m, rfl⟩ := Nat.exists_eq_succ_of_ne_zero hn
  rfl

theorem decimalAux_shift : ∀ (fuel n : Nat) (acc : List Char),
    decimalAux fuel n acc = decimalAux fuel n [] ++ acc := by
  intro fuel
  induction fuel with
  | zero => intro n acc; cases n <;> rfl
  | succ f ih =>
    intro n acc
    cases n with
    | zero => rfl
    | succ m =>
      rw [show decimalAux (f + 1) (m + 1) acc = decimalAux f ((m + 1) / 10)
            (Char.ofNat (48 + (m + 1) % 10) :: acc) from rfl,
        show decimalAux (f + 1) (m + 1) [] = decimalAux f ((m + 1) / 10)
            (Char.ofNat (48 + (m + 1) % 10) :: []) from rfl,
        ih, ih ((m + 1) / 10) (Char.ofNat (48 + (m + 1) % 10) :: [])]
      simp

/-- Rendering the value of a leading-zero-free digit string reproduces it
(given at least that value's worth of fuel). -/
theorem decimalAux_natOfDigits :
    ∀ cs : List Char, cs.all isDigitB = true → cs ≠ [] →
      (∀ d ds, cs = d :: ds → digit19 d = true) →
      ∀ fuel, natOfDigits cs ≤ fuel →
      decimalAux fuel (natOfDigits cs) [] = cs := by
  intro cs
  induction cs using List.reverseRecOn with
  | nil => intro _ h; exact absurd rfl h
  | append_singleton ds c ih =>
    intro hall _ hhead fuel hfuel
    have hcd : isDigitB c = true := by
      have := List.all_eq_true.mp hall c (by simp)
      simpa using this
    have hk9 : c.toNat - 48 ≤ 9 := by have := (isDigit_toNat hcd).2; omega
    rcases ds with _ | ⟨d, ds'⟩
    · -- single digit
      have hd : digit19 c = true := hhead c [] rfl
      have hk1 : 1 ≤ c.toNat - 48 := by have := (digit19_toNat hd).1; omega
      have hn : natOfDigits [c] = c.toNat - 48 := by simp [natOfDigits]
      rw [List.nil_append, hn] at hfuel ⊢
      rw [decimalAux_of_pos (by omega) (by omega),
        Nat.div_eq_of_lt (by omega), Nat.mod_eq_of_lt (by omega),
        decimalAux_zero]
      simp [ofNat_digit_toNat hcd]
    · have hd : digit19 d = true := hhead d (ds' ++ [c]) (by simp)
      have hallds : (d :: ds').all isDigitB = true := by
        rw [List.all_eq_true] at hall ⊢
        intro x hx
        exact hall x (List.mem_append_left [c] hx)
      set v := natOfDigits (d :: ds') with hv
      have hv1 : 1 ≤ v := natOfDigits_pos hd
      have hn : natOfDigits ((d :: ds') ++ [c]) = 10 * v + (c.toNat - 48) :=
        natOfDigits_snoc _ _
      rw [hn] at hfuel ⊢
      have hvf : v ≤ fuel - 1 := by omega
      have ihds := ih hallds (by simp)
        (by rintro e es ⟨rfl, rfl⟩; exact hd) (fuel - 1) hvf
      rw [decimalAux_of_pos (by omega) (by omega)]
      have hdiv : (10 * v + (c.toNat - 48)) / 10 = v := by omega
      have hmod : (10 * v + (c.toNat - 48)) % 10 = c.toNat - 48 := by omega
      rw [hdiv, hmod, decimalAux_shift, ihds, ofNat_digit_toNat hcd]

theorem numCoreB_elim {t : List Char} (h : numCoreB t = true) :
    t = ['0'] ∨ ∃ c cs, t = c :: cs ∧ digit19 c = true ∧
      cs.all isDigitB = true := by
  rcases t with _ | ⟨c, cs⟩
  · exact absurd h (by simp [numCoreB])
  · simp only [numCoreB, Bool.or_eq_true, Bool.and_eq_true, decide_eq_true_eq,
      List.isEmpty_iff] at h
    rcases h with ⟨rfl, rfl⟩ | ⟨h1, h2⟩
    · exact Or.inl rfl
    · exact Or.inr ⟨c, cs, rfl, h1, h2⟩

/-- The `%d` rendering of the value of a `0|[1-9]\d*` numeral is the numeral. -/
theorem decimal_natOfDigits {t : List Char} (h : numCoreB t = true) :
    decimal (natOfDigits t) = ⟨t⟩ := by
  rcases numCoreB_elim h with rfl | ⟨c, cs, rfl, h1, h2⟩
  · rfl
  · have hne : natOfDigits (c :: cs) ≠ 0 := by
      have := @natOfDigits_pos c cs h1; omega
    have hall : (c :: cs).all isDigitB = true := by
      rw [List.all_eq_true] at h2 ⊢
      intro x hx
      rcases List.mem_cons.mp hx with rfl | hx'
      · simpa using digit19_isDigit h1
      · exact h2 x hx'
    rw [decimal, if_neg hne, decimalAux_natOfDigits _ hall (by simp)
      (by rintro d ds ⟨rfl, rfl⟩; exact h1) _ le_rfl]

/-! ## Soundness and completeness of the match against the grammar -/

/-- The head of the remaining input (if any) is not a digit; true of the
continuations `.`, `-`, `+` and the end of the string. -/
def noDigitHead : List Char → Prop
  | [] => True
  | c :: _ => isDigitB c = false

theorem parseNum_sound {cs t r : List Char} (h : parseNum cs = some (t, r)) :
    cs = t ++ r ∧ numCoreB t = true := by
  rcases cs with _ | ⟨c, cs'⟩
  · exact absurd h (by simp [parseNum])
  · by_cases h0 : c = '0'
    · subst h0
      simp only [parseNum, if_pos rfl, Option.some.injEq, Prod.mk.injEq] at h
      obtain ⟨rfl, rfl⟩ := h
      exact ⟨rfl, by decide⟩
    · by_cases h19 : digit19 c = true
      · simp only [parseNum, if_neg h0, if_pos h19, Option.some.injEq,
          Prod.mk.injEq] at h
        obtain ⟨rfl, rfl⟩ := h
        refine ⟨by simp, ?_⟩
        simp only [numCoreB, Bool.or_eq_true, Bool.and_eq_true]
        exact Or.inr ⟨h19, by
          rw [List.all_eq_true]
          intro x hx
          exact List.mem_takeWhile_imp hx⟩
      · simp [parseNum, h0, h19] at h

theorem parseNum_complete {t r : List Char} (ht : numCoreB t = true)
    (hr : noDigitHead r) : parseNum (t ++ r) = some (t, r) := by
  rcases numCoreB_elim ht with rfl | ⟨c, cs, rfl, h19, hall⟩
  · simp [parseNum]
  · have htake : r.takeWhile isDigitB = [] := by
      rcases r with _ | ⟨x, r'⟩
      · rfl
      · exact List.takeWhile_cons_of_neg (by simp_all [noDigitHead])
    have hdrop : r.dropWhile isDigitB = r := by
      rcases r with _ | ⟨x, r'⟩
      · rfl
      · exact List.dropWhile_cons_of_neg (by simp_all [noDigitHead])
    have hallp : ∀ x ∈ cs, isDigitB x = true := List.all_eq_true.mp hall
    simp only [List.cons_append, parseNum, if_neg (digit19_ne_zero h19),
      if_pos h19, List.takeWhile_append_of_pos hallp,
      List.dropWhile_append_of_pos hallp, htake, hdrop, List.append_nil]

theorem expectChar_sound {a : Char} {cs r : List Char}
    (h : expectChar a cs = some r) : cs = a :: r := by
  rcases cs with _ | ⟨c, cs'⟩
  · exact absurd h (by simp [expectChar])
  · by_cases hc : c = a
    · subst hc
      simp only [expectChar, if_pos, Option.some.injEq] at h
      rw [h]
    · simp [expectChar, hc] at h

/-- `splitOnChar` never produces an empty list of groups. -/
theorem splitOnChar_ne_nil (sep : Char) :
    ∀ cs : List Char, splitOnChar sep cs ≠ [] := by
  intro cs
  rcases cs with _ | ⟨c, cs'⟩
  · simp [splitOnChar]
  · simp only [splitOnChar]
    rcases h : splitOnChar sep cs' with _ | ⟨g, gs⟩
    · simp
    · by_cases hc : c = sep <;> simp [hc]

/-- Every character of a split list is either the separator or lies in one of
the groups. -/
theorem mem_splitOnChar {sep c : Char} :
    ∀ {cs : List Char}, c ∈ cs →
      c = sep ∨ ∃ g ∈ splitOnChar sep cs, c ∈ g := by
  intro cs
  induction cs with
  | nil => intro h; exact absurd h (List.not_mem_nil c)
  | cons d ds ih =>
    intro hmem
    rcases hsp : splitOnChar sep ds with _ | ⟨g, gs⟩
    · exact absurd hsp (splitOnChar_ne_nil sep ds)
    rcases List.mem_cons.mp hmem with rfl | hin
    · by_cases hd : c = sep
      · exact Or.inl hd
      · refine Or.inr ⟨c :: g, ?_, List.mem_cons_self c g⟩
        simp [splitOnChar, hsp, hd]
    · rcases ih hin with hsep | ⟨g', hg', hcg'⟩
      · exact Or.inl hsep
      · rw [hsp] at hg'
        by_cases hd : d = sep
        · refine Or.inr ⟨g', ?_, hcg'⟩
          simp only [splitOnChar, hsp, if_pos hd]
          exact List.mem_cons_of_mem _ hg'
        · rcases List.mem_cons.mp hg' with rfl | htl
          · refine Or.inr ⟨d :: g', ?_, List.mem_cons_of_mem d hcg'⟩
            simp [splitOnChar, hsp, hd]
          · refine Or.inr ⟨g', ?_, hcg'⟩
            simp only [splitOnChar, hsp, if_neg hd]
            exact List.mem_cons_of_mem _ htl

/-- Characters of a valid prerelease group are never `+`: they are either the
identifier-separating `.` or drawn from `[0-9a-zA-Z-]`. -/
theorem preOkB_no_plus {p : List Char} (h : preOkB p = true) :
    ∀ c ∈ p, c ≠ '+' := by
  intro c hc
  rcases @mem_splitOnChar '.' c p hc with rfl | ⟨g, hg, hcg⟩
  · decide
  · have hid : preIdentB g = true := List.all_eq_true.mp h g hg
    have hch : identChar c = true := by
      have := (Bool.and_eq_true .. ▸ hid).1
      have h2 := (Bool.and_eq_true .. ▸ this).2
      exact List.all_eq_true.mp h2 c hcg
    simp only [identChar, Bool.or_eq_true, decide_eq_true_eq] at hch
    rcases hch with (hd | ha) | rfl
    · intro hEq; subst hEq; exact absurd hd (by decide)
    · intro hEq; subst hEq; exact absurd ha (by decide)
    · decide

theorem preOkB_ne_nil {p : List Char} (h : preOkB p = true) : p ≠ [] := by
  rintro rfl; exact absurd h (by decide)

theorem metaOkB_ne_nil {m : List Char} (h : metaOkB m = true) : m ≠ [] := by
  rintro rfl; exact absurd h (by decide)

theorem parsePre_sound {cs : List Char} {po : Option (List Char)}
    {r : List Char} (h : parsePre cs = some (po, r)) :
    cs = preOptChars po ++ r ∧ ∀ p ∈ po, preOkB p = true := by
  unfold parsePre at h
  split at h
  · rename_i rest
    split at h
    · rename_i hok
      rw [Option.some.injEq, Prod.mk.injEq] at h
      obtain ⟨rfl, rfl⟩ := h
      refine ⟨by simp [preOptChars], ?_⟩
      intro p hp
      rw [Option.mem_def, Option.some.injEq] at hp
      rw [← hp]; exact hok
    · exact absurd h (by simp)
  · rw [Option.some.injEq, Prod.mk.injEq] at h
    obtain ⟨rfl, rfl⟩ := h
    exact ⟨rfl, by simp⟩

theorem parseMeta_sound {cs : List Char} {mo : Option (List Char)}
    (h : parseMeta cs = some mo) :
    cs = metaOptChars mo ∧ ∀ m ∈ mo, metaOkB m = true := by
  unfold parseMeta at h
  split at h
  · rw [Option.some.injEq] at h
    obtain rfl := h.symm
    exact ⟨rfl, by simp⟩
  · split at h
    · rename_i hok
      rw [Option.some.injEq] at h
      obtain rfl := h.symm
      refine ⟨rfl, ?_⟩
      intro m hm
      rw [Option.mem_def, Option.some.injEq] at hm
      rw [← hm]; exact hok
    · exact absurd h (by simp)
  · exact absurd h (by simp)


theorem data_mk (l : List Char) : String.data ⟨l⟩ = l := rfl

theorem mk_nil_eq_empty : (⟨[]⟩ : String) = "" := rfl

theorem findSubmatch_sound {s : String} {cap : Captures}
    (h : findSubmatch s = some cap) : SemverAccepts s := by
  unfold findSubmatch at h
  split at h
  · exact absurd h (by simp)
  rename_i maj r1 h1
  split at h
  · exact absurd h (by simp)
  rename_i r2 h2
  split at h
  · exact absurd h (by simp)
  rename_i mn r3 h3
  split at h
  · exact absurd h (by simp)
  rename_i r4 h4
  split at h
  · exact absurd h (by simp)
  rename_i pat r5 h5
  split at h
  · exact absurd h (by simp)
  rename_i pre r6 h6
  split at h
  · exact absurd h (by simp)
  rename_i meta h7
  obtain ⟨hd1, hc1⟩ := parseNum_sound h1
  have he1 := expectChar_sound h2
  obtain ⟨hd2, hc2⟩ := parseNum_sound h3
  have he2 := expectChar_sound h4
  obtain ⟨hd3, hc3⟩ := parseNum_sound h5
  obtain ⟨hd4, hc4⟩ := parsePre_sound h6
  obtain ⟨hd5, hc5⟩ := parseMeta_sound h7
  refine ⟨maj, mn, pat, pre, meta, hc1, hc2, hc3, hc4, hc5, ?_⟩
  rw [hd1, he1, hd2, he2, hd3, hd4, hd5]
  simp [List.append_assoc]

theorem parsePre_cons_dash (rest : List Char) :
    parsePre ('-' :: rest)
      = if preOkB (rest.takeWhile (fun c => c ≠ '+')) then
          some (some (rest.takeWhile (fun c => c ≠ '+')),
            rest.dropWhile (fun c => c ≠ '+'))
        else none := rfl

theorem parseMeta_cons_plus (rest : List Char) :
    parseMeta ('+' :: rest)
      = if metaOkB rest then some (some rest) else none := rfl

theorem findSubmatch_complete {maj mn pat : List Char}
    {pre meta : Option (List Char)} {s : String}
    (hmaj : numCoreB maj = true) (hmn : numCoreB mn = true)
    (hpat : numCoreB pat = true)
    (hpre : ∀ p ∈ pre, preOkB p = true)
    (hmeta : ∀ m ∈ meta, metaOkB m = true)
    (hs : s.data = maj ++ '.' :: mn ++ '.' :: pat ++ preOptChars pre
      ++ metaOptChars meta) :
    findSubmatch s = some ⟨maj, mn, pat, pre.getD [], meta.getD []⟩ := by
  have hs' : s.data = maj ++ ('.' :: (mn ++ ('.' :: (pat
      ++ (preOptChars pre ++ metaOptChars meta))))) := by
    rw [hs]
    simp [List.append_assoc, List.cons_append]
  have hnd : noDigitHead (preOptChars pre ++ metaOptChars meta) := by
    rcases pre with _ | p
    · rcases meta with _ | m
      · exact trivial
      · show isDigitB '+' = false
        decide
    · show isDigitB '-' = false
      decide
  have h1 : parseNum s.data = some (maj, '.' :: (mn ++ ('.' :: (pat
      ++ (preOptChars pre ++ metaOptChars meta))))) := by
    rw [hs']
    have hd : noDigitHead ('.' :: (mn ++ ('.' :: (pat
        ++ (preOptChars pre ++ metaOptChars meta))))) := by
      show isDigitB '.' = false
      decide
    exact parseNum_complete hmaj hd
  have h3 : parseNum (mn ++ ('.' :: (pat
      ++ (preOptChars pre ++ metaOptChars meta))))
      = some (mn, '.' :: (pat ++ (preOptChars pre ++ metaOptChars meta))) := by
    have hd : noDigitHead ('.' :: (pat
        ++ (preOptChars pre ++ metaOptChars meta))) := by
      show isDigitB '.' = false
      decide
    exact parseNum_complete hmn hd
  have h5 : parseNum (pat ++ (preOptChars pre ++ metaOptChars meta))
      = some (pat, preOptChars pre ++ metaOptChars meta) :=
    parseNum_complete hpat hnd
  have h6 : parsePre (preOptChars pre ++ metaOptChars meta)
      = some (pre, metaOptChars meta) := by
    rcases pre with _ | p
    · rcases meta with _ | m
      · rfl
      · rfl
    · have hp := hpre p (by simp)
      have hnp : ∀ c ∈ p, (fun c => decide (c ≠ '+')) c = true := by
        intro c hc
        simpa using preOkB_no_plus hp c hc
      have htw : (p ++ metaOptChars meta).takeWhile (fun c => c ≠ '+') = p := by
        rw [List.takeWhile_append_of_pos hnp]
        rcases meta with _ | m
        · simp [metaOptChars]
        · simp [metaOptChars]
      have hdw : (p ++ metaOptChars meta).dropWhile (fun c => c ≠ '+')
          = metaOptChars meta := by
        rw [List.dropWhile_append_of_pos hnp]
        rcases meta with _ | m
        · simp [metaOptChars]
        · simp [metaOptChars]
      show parsePre ('-' :: (p ++ metaOptChars meta)) = _
      rw [parsePre_cons_dash, htw, hdw, if_pos hp]
  have h7 : parseMeta (metaOptChars meta) = some meta := by
    rcases meta with _ | m
    · rfl
    · show parseMeta ('+' :: m) = some (some m)
      rw [parseMeta_cons_plus, if_pos (hmeta m (by simp))]
  unfold findSubmatch
  simp only [h1, h3, h5, h6, h7, expectChar, if_pos]

/-- A string on which the matcher fails is outside the grammar's language. -/
theorem not_accepts_of_findSubmatch_none {s : String}
    (h : findSubmatch s = none) : ¬ SemverAccepts s := by
  rintro ⟨maj, mn, pat, pre, meta, h1, h2, h3, h4, h5, h6⟩
  have hf := findSubmatch_complete h1 h2 h3 h4 h5 h6
  rw [h] at hf
  exact Option.noConfusion hf

/-! ## Claims C3, C2 -/

/-- C3: every string outside the language of `VersionPattern` makes `Parse`
panic with the invalid-version error (`none`); no components are returned and
no default version is substituted. -/
theorem parse_rejects_nonSemver (s : String) (h : ¬ SemverAccepts s) :
    Parse s = none := by
  rcases hf : findSubmatch s with _ | cap
  · rw [Parse, hf]; rfl
  · exact absurd (findSubmatch_sound hf) h

/-- Closed instances of C3 at the spec's four examples. -/
theorem parse_rejects_nonSemver_witness :
    Parse "1.2" = none ∧ Parse "1.2.3.4" = none ∧
    Parse "v1.2.3" = none ∧ Parse "" = none :=
  ⟨parse_rejects_nonSemver "1.2"
      (not_accepts_of_findSubmatch_none (by decide)),
    parse_rejects_nonSemver "1.2.3.4"
      (not_accepts_of_findSubmatch_none (by decide)),
    parse_rejects_nonSemver "v1.2.3"
      (not_accepts_of_findSubmatch_none (by decide)),
    parse_rejects_nonSemver ""
      (not_accepts_of_findSubmatch_none (by decide))⟩

/-- The numeric captures of a successful match all fit in a 64-bit `uint`,
so that `fmt.Sscanf` assigns them unchanged. -/
def Fits64 (s : String) : Prop :=
  ∀ cap, findSubmatch s = some cap →
    natOfDigits cap.maj < 2 ^ 64 ∧ natOfDigits cap.min < 2 ^ 64 ∧
    natOfDigits cap.pat < 2 ^ 64

/-- C2 (amended): for every string accepted by the semver grammar whose three
numeric components fit in a 64-bit `uint`, `Parse` succeeds and the canonical
renderer reproduces the input exactly. -/
theorem parse_roundTrip (s : String) (hacc : SemverAccepts s)
    (hfit : Fits64 s) : ∃ v, Parse s = some v ∧ renderSemVer v = s := by
  obtain ⟨maj, mn, pat, pre, meta, hmaj, hmn, hpat, hpre, hmeta, hs⟩ := hacc
  have hf := findSubmatch_complete hmaj hmn hpat hpre hmeta hs
  obtain ⟨b1, b2, b3⟩ := hfit _ hf
  refine ⟨⟨sscanfUint maj, sscanfUint mn, sscanfUint pat,
    ⟨pre.getD []⟩, ⟨meta.getD []⟩⟩, by rw [Parse, hf]; rfl, ?_⟩
  have e1 : decimal (sscanfUint maj) = (⟨maj⟩ : String) := by
    rw [sscanfUint, if_pos b1]
    exact decimal_natOfDigits hmaj
  have e2 : decimal (sscanfUint mn) = (⟨mn⟩ : String) := by
    rw [sscanfUint, if_pos b2]
    exact decimal_natOfDigits hmn
  have e3 : decimal (sscanfUint pat) = (⟨pat⟩ : String) := by
    rw [sscanfUint, if_pos b3]
    exact decimal_natOfDigits hpat
  apply String.ext
  rw [hs]
  simp only [renderSemVer, e1, e2, e3]
  rcases pre with _ | p <;> rcases meta with _ | m
  · simp [preOptChars, metaOptChars, mk_nil_eq_empty]
  · have hm : (⟨m⟩ : String) ≠ "" := by
      intro hEq
      exact metaOkB_ne_nil (hmeta m (by simp))
        (by simpa [String.ext_iff] using hEq)
    simp only [Option.getD, mk_nil_eq_empty]
    rw [if_neg (by simp), if_pos hm]
    simp [preOptChars, metaOptChars]
  · have hp : (⟨p⟩ : String) ≠ "" := by
      intro hEq
      exact preOkB_ne_nil (hpre p (by simp))
        (by simpa [String.ext_iff] using hEq)
    simp only [Option.getD, mk_nil_eq_empty]
    rw [if_pos hp, if_neg (by simp)]
    simp [preOptChars, metaOptChars]
  · have hp : (⟨p⟩ : String) ≠ "" := by
      intro hEq
      exact preOkB_ne_nil (hpre p (by simp))
        (by simpa [String.ext_iff] using hEq)
    have hm : (⟨m⟩ : String) ≠ "" := by
      intro hEq
      exact metaOkB_ne_nil (hmeta m (by simp))
        (by simpa [String.ext_iff] using hEq)
    simp only [Option.getD]
    rw [if_pos hp, if_pos hm]
    simp [preOptChars, metaOptChars]

/-- Closed instance of C2 at a grammar-accepted string with both optional
groups present. -/
theorem parse_roundTrip_witness :
    ∃ v, Parse "1.2.3-beta+red" = some v ∧
      renderSemVer v = "1.2.3-beta+red" := by
  apply parse_roundTrip
  · exact ⟨['1'], ['2'], ['3'], some ['b', 'e', 't', 'a'],
      some ['r', 'e', 'd'], by decide, by decide, by decide,
      by intro p hp; rw [Option.mem_def, Option.some.injEq] at hp
         rw [← hp]; decide,
      by intro m hm; rw [Option.mem_def, Option.some.injEq] at hm
         rw [← hm]; decide,
      by decide⟩
  · intro cap hcap
    rw [show findSubmatch "1.2.3-beta+red" = some ⟨['1'], ['2'], ['3'],
      ['b', 'e', 't', 'a'], ['r', 'e', 'd']⟩ from rfl,
      Option.some.injEq] at hcap
    rw [← hcap]
    refine ⟨?_, ?_, ?_⟩ <;> decide

/-- C2 as frozen is false: this string is accepted by the grammar, but its
major component is `2 ^ 64`, which overflows Go's `uint`; `fmt.Sscanf`'s
error is ignored and the zero value is kept, so the round trip renders
`"0.0.0"`. -/
theorem parse_roundTrip_counterexample :
    SemverAccepts "18446744073709551616.0.0" ∧
    ¬ ∃ v, Parse "18446744073709551616.0.0" = some v ∧
      renderSemVer v = "18446744073709551616.0.0" := by
  constructor
  · refine ⟨"18446744073709551616".data, ['0'], ['0'], none, none,
      by decide, by decide, by decide, by simp, by simp, by decide⟩
  · rintro ⟨v, hv, hr⟩
    rw [show Parse "18446744073709551616.0.0"
      = some ⟨0, 0, 0, "", ""⟩ from by decide, Option.some.injEq] at hv
    rw [← hv] at hr
    rw [show renderSemVer ⟨0, 0, 0, "", ""⟩ = "0.0.0" from rfl] at hr
    exact absurd hr (by decide)

/-! ## Claims C7, C8, C10 -/

/-- C7: `IsSet` is true exactly when some field of the `Version` struct
differs from its zero value, and `Set("0.0.0")` writes the all-zero state
(on which `IsSet` is therefore false). -/
theorem isSet_spec (v : VState) :
    (IsSet v = true ↔ v ≠ ⟨0, 0, 0, "", ""⟩) ∧
    Set "0.0.0" = some ⟨0, 0, 0, "", ""⟩ ∧
    IsSet ⟨0, 0, 0, "", ""⟩ = false := by
  refine ⟨?_, by decide, by decide⟩
  obtain ⟨a, b, c, d, e⟩ := v
  simp only [IsSet, Bool.or_eq_true, bne_iff_ne, ne_eq, VState.mk.injEq,
    not_and_or]
  tauto

/-- C8: `String()` renders the singleton's fields when set; otherwise, with a
non-empty `ChangeLog`, it reparses and rerenders the last entry's version,
returning the singleton unchanged; otherwise it returns the empty string. -/
theorem versionString_spec (v : VState) (log : List Change) :
    (IsSet v = true → VersionString v log
      = some (renderSemVer ⟨v.Major, v.Minor, v.Patch, v.Prerelease,
          v.Metadata⟩, v))
  ∧ (IsSet v = false → ∀ c w, log.getLast? = some c →
      Parse c.Version = some w →
      VersionString v log = some (renderSemVer w, v))
  ∧ (IsSet v = false → log = [] → VersionString v log = some ("", v)) := by
  refine ⟨fun hset => ?_, fun hunset c w hlast hw => ?_, fun hunset hnil => ?_⟩
  · rw [VersionString, if_pos hset]
  · rw [VersionString, if_neg (by simp [hunset])]
    simp only [hlast, hw, Option.map_some']
  · subst hnil
    rw [VersionString, if_neg (by simp [hunset])]
    rfl

/-- Closed instances of C8: all three branches at concrete states. -/
theorem versionString_spec_witness :
    VersionString ⟨1, 2, 3, "", ""⟩ [] = some ("1.2.3", ⟨1, 2, 3, "", ""⟩)
  ∧ VersionString ⟨0, 0, 0, "", ""⟩ [⟨"", "0.2.0-beta+red", "", "", []⟩]
      = some ("0.2.0-beta+red", ⟨0, 0, 0, "", ""⟩)
  ∧ VersionString ⟨0, 0, 0, "", ""⟩ [] = some ("", ⟨0, 0, 0, "", ""⟩) := by
  refine ⟨?_, ?_, ?_⟩
  · have h := (versionString_spec ⟨1, 2, 3, "", ""⟩ []).1 (by decide)
    rw [h]; decide
  · have h := (versionString_spec ⟨0, 0, 0, "", ""⟩
      [⟨"", "0.2.0-beta+red", "", "", []⟩]).2.1 (by decide)
      ⟨"", "0.2.0-beta+red", "", "", []⟩
      ⟨0, 2, 0, "beta", "red"⟩ rfl (by decide)
    rw [h]; decide
  · exact (versionString_spec ⟨0, 0, 0, "", ""⟩ []).2.2 (by decide) rfl

/-- C10: when the state is unset and the last `ChangeLog` entry's version is
rejected by the grammar, `String()` panics (`none`) instead of returning the
empty string. -/
theorem versionString_invalid_last (v : VState) (log : List Change)
    (c : Change) (hset : IsSet v = false) (hlast : log.getLast? = some c)
    (hbad : Parse c.Version = none) : VersionString v log = none := by
  rw [VersionString, if_neg (by simp [hset])]
  simp only [hlast, hbad, Option.map_none']

/-- Closed instance of C10: an unset state with a `ChangeLog` whose last
entry carries the non-semver version `"v1.2.3"`. -/
theorem versionString_invalid_last_witness :
    VersionString ⟨0, 0, 0, "", ""⟩ [⟨"", "v1.2.3", "", "", []⟩] = none :=
  versionString_invalid_last ⟨0, 0, 0, "", ""⟩ _ ⟨"", "v1.2.3", "", "", []⟩
    (by decide) rfl (by decide)

/-! ## Go `time` layouts: tokens

`ParseDate` drives Go's `time.Parse` over fixed layout strings.  A layout is
scanned into standard chunks exactly as Go's `nextStdChunk` does for the
alphabet occurring in this package's layouts ("2006", "06", "January", "Jan",
"Monday", "Mon", "MST", "15", "1", "01".."06", "2", "_2", "3", "4", "5",
"PM", "pm", "-0700", "Z07:00", ".999999999", literals). -/

inductive Tok where
  | Lit (c : Char)
  | LongYear | Year
  | LongMonth | Month | NumMonth | ZeroMonth
  | LongWeekDay | WeekDay
  | Day | ZeroDay | UnderDay
  | Hour | Hour12 | ZeroHour12
  | Minute | ZeroMinute
  | Second | ZeroSecond
  | PM | pmLow
  | TZ | NumTZ | ISOColonTZ | FracSec9
  deriving Repr, DecidableEq

/-- Layout scanner (`nextStdChunk` iterated); the fuel argument is consumed
once per produced token and every use supplies the character count, an upper
bound on the token count. -/
def toksF : Nat → List Char → List Tok
  | 0, _ => []
  | _ + 1, [] => []
  | fuel + 1, '2' :: '0' :: '0' :: '6' :: r => Tok.LongYear :: toksF fuel r
  | fuel + 1, '2' :: r => Tok.Day :: toksF fuel r
  | fuel + 1, '0' :: '1' :: r => Tok.ZeroMonth :: toksF fuel r
  | fuel + 1, '0' :: '2' :: r => Tok.ZeroDay :: toksF fuel r
  | fuel + 1, '0' :: '3' :: r => Tok.ZeroHour12 :: toksF fuel r
  | fuel + 1, '0' :: '4' :: r => Tok.ZeroMinute :: toksF fuel r
  | fuel + 1, '0' :: '5' :: r => Tok.ZeroSecond :: toksF fuel r
  | fuel + 1, '0' :: '6' :: r => Tok.Year :: toksF fuel r
  | fuel + 1, '1' :: '5' :: r => Tok.Hour :: toksF fuel r
  | fuel + 1, '1' :: r => Tok.NumMonth :: toksF fuel r
  | fuel + 1, '3' :: r => Tok.Hour12 :: toksF fuel r
  | fuel + 1, '4' :: r => Tok.Minute :: toksF fuel r
  | fuel + 1, '5' :: r => Tok.Second :: toksF fuel r
  | fuel + 1, 'J' :: 'a' :: 'n' :: 'u' :: 'a' :: 'r' :: 'y' :: r =>
    Tok.LongMonth :: toksF fuel r
  | fuel + 1, 'J' :: 'a' :: 'n' :: r => Tok.Month :: toksF fuel r
  | fuel + 1, 'M' :: 'o' :: 'n' :: 'd' :: 'a' :: 'y' :: r =>
    Tok.LongWeekDay :: toksF fuel r
  | fuel + 1, 'M' :: 'o' :: 'n' :: r => Tok.WeekDay :: toksF fuel r
  | fuel + 1, 'M' :: 'S' :: 'T' :: r => Tok.TZ :: toksF fuel r
  | fuel + 1, '_' :: '2' :: r => Tok.UnderDay :: toksF fuel r
  | fuel + 1, 'P' :: 'M' :: r => Tok.PM :: toksF fuel r
  | fuel + 1, 'p' :: 'm' :: r => Tok.pmLow :: toksF fuel r
  | fuel + 1, '-' :: '0' :: '7' :: '0' :: '0' :: r => Tok.NumTZ :: toksF fuel r
  | fuel + 1, 'Z' :: '0' :: '7' :: ':' :: '0' :: '0' :: r =>
    Tok.ISOColonTZ :: toksF fuel r
  | fuel + 1, '.' :: '9' :: '9' :: '9' :: '9' :: '9' :: '9' :: '9' :: '9'
      :: '9' :: r => Tok.FracSec9 :: toksF fuel r
  | fuel + 1, c :: r => Tok.Lit c :: toksF fuel r

def toks (layout : String) : List Tok := toksF layout.data.length layout.data

/-! ## Go `time.Parse` over a token list -/

def longMonthNames : List String :=
  ["January", "February", "March", "April", "May", "June", "July", "August",
    "September", "October", "November", "December"]

def shortMonthNames : List String :=
  ["Jan", "Feb", "Mar", "Apr", "May", "Jun", "Jul", "Aug", "Sep", "Oct",
    "Nov", "Dec"]

def longDayNames : List String :=
  ["Sunday", "Monday", "Tuesday", "Wednesday", "Thursday", "Friday",
    "Saturday"]

def shortDayNames : List String :=
  ["Sun", "Mon", "Tue", "Wed", "Thu", "Fri", "Sat"]

/-- Go `time.match`: ASCII case-insensitive comparison (bytes equal, or they
differ only in bit 0x20 and the lowered byte is a letter). -/
def matchCI : List Char → List Char → Bool
  | [], [] => true
  | c1 :: r1, c2 :: r2 =>
    (c1 = c2 || (c1.toNat ||| 32 = c2.toNat ||| 32
      && 97 ≤ (c1.toNat ||| 32) && c1.toNat ||| 32 ≤ 122))
      && matchCI r1 r2
  | _, _ => false

/-- Go `time.lookup`: first table entry that is a case-insensitive prefix of
the value; returns its index and the remaining value. -/
def lookupAux (val : List Char) : List (List Char) → Nat →
    Option (Nat × List Char)
  | [], _ => none
  | v :: rest, i =>
    if v.length ≤ val.length && matchCI (val.take v.length) v then
      some (i, val.drop v.length)
    else lookupAux val rest (i + 1)

/-- Go `time.getnum`: one digit, or two digits; `fixed` requires exactly two. -/
def getnum (fixed : Bool) : List Char → Option (Nat × List Char)
  | [] => none
  | c :: cs =>
    if isDigitB c then
      match cs with
      | c2 :: cs2 =>
        if isDigitB c2 then
          some ((c.toNat - 48) * 10 + (c2.toNat - 48), cs2)
        else if fixed then none
        else some (c.toNat - 48, cs)
      | [] => if fixed then none else some (c.toNat - 48, [])
    else none

/-- Exactly `k` leading digits (the year fields: a slice of fixed width fed
to `atoi`). -/
def fixedDigits (k : Nat) (val : List Char) : Option (Nat × List Char) :=
  let p := val.take k
  if p.length = k && p.all isDigitB then some (natOfDigits p, val.drop k)
  else none

/-- Go `time.parseSignedOffset`: `[+-]` followed by a decimal hour count of
at most 23; returns the number of bytes consumed (0 on failure). -/
def parseSignedOffset (val : List Char) : Nat :=
  match val with
  | c :: rest =>
    if c = '+' ∨ c = '-' then
      let ds := rest.takeWhile isDigitB
      if ds.isEmpty then 0
      else if 23 < natOfDigits ds then 0
      else 1 + ds.length
    else 0
  | [] => 0

/-- Go `time.parseGMT`: "GMT" with an optional signed hour offset. -/
def parseGMT (val : List Char) : Nat :=
  let rest := val.drop 3
  if rest.isEmpty then 3 else 3 + parseSignedOffset rest

/-- Go `time.parseTimeZone`: how many bytes of the value look like a time
zone abbreviation. -/
def parseTimeZone (val : List Char) : Option Nat :=
  if val.length < 3 then none
  else if val.take 4 = ['C', 'h', 'S', 'T'] ∨ val.take 4 = ['M', 'e', 'S', 'T']
    then some 4
  else if val.take 3 = ['G', 'M', 'T'] then some (parseGMT val)
  else match val with
    | c :: _ =>
      if c = '+' ∨ c = '-' then
        let n := parseSignedOffset val
        if 0 < n then some n else none
      else
        let nUpper := min 6
          ((val.takeWhile (fun c => 65 ≤ c.toNat && c.toNat ≤ 90)).length)
        if nUpper = 3 then some 3
        else if nUpper = 4 then
          if val.getD 3 ' ' = 'T' ∨ val.take 4 = ['W', 'I', 'T', 'A']
          then some 4 else none
        else if nUpper = 5 then
          if val.getD 4 ' ' = 'T' then some 5 else none
        else none
    | [] => none

/-- The mutable locals of Go's `Parse` loop (month and day default to 1 when
absent, the rest to zero; `Parse`'s own epilogue does the same). -/
structure PState where
  year : Nat := 0
  month : Nat := 1
  day : Nat := 1
  hour : Nat := 0
  minute : Nat := 0
  sec : Nat := 0
  pmSet : Bool := false
  amSet : Bool := false
  zName : Option String := none
  zOff : Option Int := none
  deriving Repr, DecidableEq

/-- One step of Go's `Parse` switch: consume the chunk from the value.
`none` is any parse or inline range error.  The two-digit year's sign corner
(`atoi` accepting `+`/`-` inside the two-byte slice) is not modeled; no
layout here places a year where a sign can occur in the tested inputs. -/
def parseTok (st : PState) (val : List Char) : Tok →
    Option (PState × List Char)
  | .Lit c => (expectChar c val).map fun r => (st, r)
  | .LongYear =>
    match val with
    | c :: _ =>
      if isDigitB c then
        (fixedDigits 4 val).map fun x => ({ st with year := x.1 }, x.2)
      else none
    | [] => none
  | .Year =>
    (fixedDigits 2 val).map fun x =>
      ({ st with year := if 69 ≤ x.1 then 1900 + x.1 else 2000 + x.1 }, x.2)
  | .LongMonth =>
    (lookupAux val (longMonthNames.map String.data) 0).map fun x =>
      ({ st with month := x.1 + 1 }, x.2)
  | .Month =>
    (lookupAux val (shortMonthNames.map String.data) 0).map fun x =>
      ({ st with month := x.1 + 1 }, x.2)
  | .NumMonth =>
    (getnum false val).bind fun x =>
      if 1 ≤ x.1 ∧ x.1 ≤ 12 then some ({ st with month := x.1 }, x.2) else none
  | .ZeroMonth =>
    (getnum true val).bind fun x =>
      if 1 ≤ x.1 ∧ x.1 ≤ 12 then some ({ st with month := x.1 }, x.2) else none
  | .LongWeekDay =>
    (lookupAux val (longDayNames.map String.data) 0).map fun x => (st, x.2)
  | .WeekDay =>
    (lookupAux val (shortDayNames.map String.data) 0).map fun x => (st, x.2)
  | .Day => (getnum false val).map fun x => ({ st with day := x.1 }, x.2)
  | .ZeroDay => (getnum true val).map fun x => ({ st with day := x.1 }, x.2)
  | .UnderDay =>
    let val2 := match val with
      | ' ' :: r => r
      | _ => val
    (getnum false val2).map fun x => ({ st with day := x.1 }, x.2)
  | .Hour =>
    (getnum false val).bind fun x =>
      if x.1 < 24 then some ({ st with hour := x.1 }, x.2) else none
  | .Hour12 =>
    (getnum false val).bind fun x =>
      if x.1 ≤ 12 then some ({ st with hour := x.1 }, x.2) else none
  | .ZeroHour12 =>
    (getnum true val).bind fun x =>
      if x.1 ≤ 12 then some ({ st with hour := x.1 }, x.2) else none
  | .Minute => (getnum false val).map fun x => ({ st with minute := x.1 }, x.2)
  | .ZeroMinute =>
    (getnum true val).map fun x => ({ st with minute := x.1 }, x.2)
  | .Second =>
    (getnum false val).bind fun x =>
      if x.1 < 60 then some ({ st with sec := x.1 }, x.2) else none
  | .ZeroSecond =>
    (getnum true val).bind fun x =>
      if x.1 < 60 then some ({ st with sec := x.1 }, x.2) else none
  | .PM =>
    match val with
    | 'P' :: 'M' :: r => some ({ st with pmSet := true }, r)
    | 'A' :: 'M' :: r => some ({ st with amSet := true }, r)
    | _ => none
  | .pmLow =>
    match val with
    | 'p' :: 'm' :: r => some ({ st with pmSet := true }, r)
    | 'a' :: 'm' :: r => some ({ st with amSet := true }, r)
    | _ => none
  | .TZ =>
    match val with
    | 'U' :: 'T' :: 'C' :: r => some ({ st with zName := some "UTC" }, r)
    | _ =>
      (parseTimeZone val).map fun n =>
        ({ st with zName := some ⟨val.take n⟩ }, val.drop n)
  | .NumTZ =>
    match val with
    | sg :: h1 :: h2 :: m1 :: m2 :: r =>
      if (sg = '+' ∨ sg = '-') ∧ isDigitB h1 ∧ isDigitB h2 ∧ isDigitB m1
          ∧ isDigitB m2 then
        let off : Int := (((h1.toNat - 48) * 10 + (h2.toNat - 48)) * 60
          + ((m1.toNat - 48) * 10 + (m2.toNat - 48))) * 60
        some ({ st with zOff := some (if sg = '-' then -off else off) }, r)
      else none
    | _ => none
  | .ISOColonTZ =>
    match val with
    | 'Z' :: r => some ({ st with zName := some "UTC" }, r)
    | sg :: h1 :: h2 :: cl :: m1 :: m2 :: r =>
      if (sg = '+' ∨ sg = '-') ∧ cl = ':' ∧ isDigitB h1 ∧ isDigitB h2
          ∧ isDigitB m1 ∧ isDigitB m2 then
        let off : Int := (((h1.toNat - 48) * 10 + (h2.toNat - 48)) * 60
          + ((m1.toNat - 48) * 10 + (m2.toNat - 48))) * 60
        some ({ st with zOff := some (if sg = '-' then -off else off) }, r)
      else none
    | _ => none
  | .FracSec9 =>
    match val with
    | sep :: d :: _ =>
      if (sep = '.' ∨ sep = ',') ∧ isDigitB d then
        some (st, (val.drop 1).dropWhile isDigitB)
      else some (st, val)
    | _ => some (st, val)

/-- The parsed result (Go `time.Time` restricted to the fields this package
renders; times parsed without zone information are in UTC). -/
structure GoTime where
  year : Nat
  month : Nat
  day : Nat
  hour : Nat
  minute : Nat
  sec : Nat
  zoneName : String
  zoneOff : Int
  deriving Repr, DecidableEq

def isLeap (y : Nat) : Bool := y % 4 = 0 && (y % 100 != 0 || y % 400 = 0)

/-- Go `time.daysIn`. -/
def daysIn (m y : Nat) : Nat :=
  if m = 2 then (if isLeap y then 29 else 28)
  else if m = 4 ∨ m = 6 ∨ m = 9 ∨ m = 11 then 30
  else 31

/-- The epilogue of Go's `Parse`: AM/PM adjustment, the range checks on
month, day (against the month's length), hour, minute and second, and the
zone resolution (abbreviations resolve against a UTC `Local`, numeric
offsets become a fixed unnamed zone, no zone information means UTC). -/
def finalize (st : PState) : Option GoTime :=
  let hour := if st.pmSet && st.hour < 12 then st.hour + 12
    else if st.amSet && st.hour = 12 then 0
    else st.hour
  if st.month < 1 ∨ 12 < st.month then none
  else if st.day < 1 ∨ daysIn st.month st.year < st.day then none
  else if 24 ≤ hour then none
  else if 60 ≤ st.minute then none
  else if 60 ≤ st.sec then none
  else
    let zn : String := match st.zName, st.zOff with
      | some n, _ => n
      | none, some _ => ""
      | none, none => "UTC"
    let zo : Int := match st.zName, st.zOff with
      | some _, _ => 0
      | none, some o => o
      | none, none => 0
    some ⟨st.year, st.month, st.day, hour, st.minute, st.sec, zn, zo⟩

/-- Go's `Parse` loop: each layout chunk consumes part of the value; the
value must be exhausted at the end. -/
def runLayout : List Tok → PState → List Char → Option PState
  | [], st, val => if val.isEmpty then some st else none
  | t :: ts, st, val =>
    match parseTok st val t with
    | none => none
    | some x => runLayout ts x.1 x.2

/-- `time.Parse(layout, value)`. -/
def goTimeParse (layout value : String) : Option GoTime :=
  (runLayout (toks layout) {} value.data).bind finalize

/-! ## `ParseDate` -/

/-- The `dateFormat` list of `ParseDate`, verbatim. -/
def dateFormat : List String :=
  ["2006 January 2",
   "2006-January-2",
   "2006 Jan 2",
   "2006-Jan-2",
   "2006-1-2",
   "2006 1 2",
   "1-2-2006",
   "1/2/2006",
   "01-02-2006",
   "01/02/2006",

   "January 2, 2006",
   "Jan 2, 2006",

   "06 January 2",
   "06-January-2",
   "06 Jan 2",
   "06-Jan-2",
   "06-1-2",
   "06 1 2",
   "1-2-06",
   "1/2/06",
   "01-02-06",
   "01/02/06",

   "January 2, 06",
   "Jan 2, 06"]

/-- The `timeFormat` list of `ParseDate`, verbatim. -/
def timeFormat : List String :=
  ["15:04:05",

   "03:04:05PM",
   "03:04:05pm",
   "3:04:05PM",
   "3:04:05pm",

   "15:04",

   "03:04PM",
   "03:04pm",
   "3:04PM",
   "3:04pm"]

/-- The standard-format list of `ParseDate`'s final loop, verbatim: the
values of `time.ANSIC`, `time.UnixDate`, `time.RubyDate`, `time.RFC822`,
`time.RFC822Z`, `time.RFC850`, `time.RFC1123`, `time.RFC1123Z`,
`time.RFC3339` and `time.RFC3339Nano`, in the source's order. -/
def stdFormat : List String :=
  ["Mon Jan _2 15:04:05 2006",
   "Mon Jan _2 15:04:05 MST 2006",
   "Mon Jan 02 15:04:05 -0700 2006",
   "02 Jan 06 15:04 MST",
   "02 Jan 06 15:04 -0700",
   "Monday, 02-Jan-06 15:04:05 MST",
   "Mon, 02 Jan 2006 15:04:05 MST",
   "Mon, 02 Jan 2006 15:04:05 -0700",
   "2006-01-02T15:04:05Z07:00",
   "2006-01-02T15:04:05.999999999Z07:00"]

/-- `ParseDate`'s first loop: every (dateFormat, timeFormat) pair, date
before time, then time before date, first success wins. -/
def tier1 (date : String) : Option GoTime :=
  dateFormat.findSome? fun fd =>
    timeFormat.findSome? fun ft =>
      goTimeParse (fd ++ " " ++ ft) date <|> goTimeParse (ft ++ " " ++ fd) date

/-- `ParseDate`'s second loop: each dateFormat alone. -/
def tier2 (date : String) : Option GoTime :=
  dateFormat.findSome? fun fd => goTimeParse fd date

/-- `ParseDate`'s third loop: the standard formats. -/
def tier3 (date : String) : Option GoTime :=
  stdFormat.findSome? fun dt => goTimeParse dt date

/-- `ParseDate(date)`: `nil` (`none`) for the empty string and when no
format matches. -/
def ParseDate (date : String) : Option GoTime :=
  if date ≠ "" then tier1 date <|> (tier2 date <|> tier3 date) else none

/-! ## Go `time.Format` (for `DateTimeFormat`) -/

/-- `DateTimeFormat = time.RFC1123`, the output template. -/
def DateTimeFormat : String := "Mon, 02 Jan 2006 15:04:05 MST"

/-- Go `appendInt`'s zero padding to a fixed width. -/
def padZeros (w n : Nat) : String :=
  ⟨List.replicate (w - (decimal n).data.length) '0'⟩ ++ decimal n

/-- Weekday (0 = Sunday) of a Gregorian date, by Zeller's congruence
(Go computes it from the absolute second count; the two agree on the years
at play, A.D. 1 onward). -/
def weekday (y m d : Nat) : Nat :=
  let ym := if m ≤ 2 then y - 1 else y
  let mm := if m ≤ 2 then m + 12 else m
  let K := ym % 100
  let J := ym / 100
  (d + 13 * (mm + 1) / 5 + K + K / 4 + J / 4 + 5 * J + 6) % 7

/-- Numeric zone in RFC822 style (`±hhmm`), Go's fallback when the zone has
no name. -/
def numTZString (off : Int) : String :=
  (if off < 0 then "-" else "+")
    ++ padZeros 2 (off.natAbs / 3600) ++ padZeros 2 (off.natAbs % 3600 / 60)

/-- One chunk of Go's `Format`. -/
def formatTok (t : GoTime) : Tok → String
  | .Lit c => ⟨[c]⟩
  | .LongYear => padZeros 4 t.year
  | .Year => padZeros 2 (t.year % 100)
  | .LongMonth => longMonthNames.getD (t.month - 1) ""
  | .Month => shortMonthNames.getD (t.month - 1) ""
  | .NumMonth => decimal t.month
  | .ZeroMonth => padZeros 2 t.month
  | .LongWeekDay => longDayNames.getD (weekday t.year t.month t.day) ""
  | .WeekDay => shortDayNames.getD (weekday t.year t.month t.day) ""
  | .Day => decimal t.day
  | .ZeroDay => padZeros 2 t.day
  | .UnderDay => if t.day < 10 then " " ++ decimal t.day else decimal t.day
  | .Hour => padZeros 2 t.hour
  | .Hour12 => decimal (if t.hour % 12 = 0 then 12 else t.hour % 12)
  | .ZeroHour12 => padZeros 2 (if t.hour % 12 = 0 then 12 else t.hour % 12)
  | .Minute => decimal t.minute
  | .ZeroMinute => padZeros 2 t.minute
  | .Second => decimal t.sec
  | .ZeroSecond => padZeros 2 t.sec
  | .PM => if 12 ≤ t.hour then "PM" else "AM"
  | .pmLow => if 12 ≤ t.hour then "pm" else "am"
  | .TZ => if t.zoneName ≠ "" then t.zoneName else numTZString t.zoneOff
  | .NumTZ => numTZString t.zoneOff
  | .ISOColonTZ =>
    if t.zoneOff = 0 then "Z"
    else (if t.zoneOff < 0 then "-" else "+")
      ++ padZeros 2 (t.zoneOff.natAbs / 3600) ++ ":"
      ++ padZeros 2 (t.zoneOff.natAbs % 3600 / 60)
  | .FracSec9 => ""

/-- `t.Format(layout)` over a scanned layout: the chunks' renderings
appended in order. -/
def formatGo : List Tok → GoTime → String
  | [], _ => ""
  | tok :: rest, t => formatTok t tok ++ formatGo rest t

/-! ## `Change.String` -/

/-- The character repeated to draw the horizontal rules, as written in the
source (`runeRepeat('―', maxWidth)`). -/
def ruleChar : Char := '―'

/-- `runeRepeat`. -/
def runeRepeat (c : Char) (n : Nat) : String := ⟨List.replicate n c⟩

/-- `horizLine := runeRepeat('―', maxWidth) + "\n"` with `maxWidth = 80`. -/
def horizLine : String := runeRepeat ruleChar 80 ++ "\n"

/-- One escaped character of Go's `%q` (`strconv.Quote`): the quote and the
backslash are backslash-escaped, printable ASCII passes through, the
standard control escapes and `\x` hex escapes cover the rest of ASCII.
(Go additionally escapes non-printable non-ASCII runes with `\u`; the
titles formatted here are ASCII.) -/
def quoteChar (c : Char) : List Char :=
  if c = '"' ∨ c = '\\' then ['\\', c]
  else if 32 ≤ c.toNat ∧ c.toNat ≤ 126 then [c]
  else if c = '\n' then ['\\', 'n']
  else if c = '\t' then ['\\', 't']
  else if c = '\r' then ['\\', 'r']
  else if c.toNat = 7 then ['\\', 'a']
  else if c.toNat = 8 then ['\\', 'b']
  else if c.toNat = 11 then ['\\', 'v']
  else if c.toNat = 12 then ['\\', 'f']
  else if c.toNat < 32 ∨ c.toNat = 127 then
    ['\\', 'x', (Nat.digitChar (c.toNat / 16)), (Nat.digitChar (c.toNat % 16))]
  else [c]

/-- `fmt.Fprintf(w, "%q", s)`. -/
def goQuote (s : String) : String := ⟨'"' :: s.data.flatMap quoteChar ++ ['"']⟩

/-- The "version - title" left-hand side builder `vsb` of `Change.String`. -/
def vsb (c : Change) : String :=
  (if c.Package ≠ "" then c.Package ++ " " else "")
    ++ "version " ++ c.Version
    ++ (if c.Title ≠ "" then " - " ++ goQuote c.Title else "")

/-- The "date" right-hand side builder `dsb` of `Change.String`: empty when
`ParseDate` finds no value. -/
def dsb (c : Change) : String :=
  match ParseDate c.Date with
  | some t => formatGo (toks DateTimeFormat) t
  | none => ""

/-- `middlePad := maxWidth - ((vsb.Len() + titlePad) + (dsb.Len() + titlePad))`
with `maxWidth = 80`, `titlePad = 1`; `Builder.Len` counts bytes. -/
def middlePad (c : Change) : Int :=
  80 - (((vsb c).utf8ByteSize + 1 : Nat) + ((dsb c).utf8ByteSize + 1 : Nat) : Nat)

/-- `fmt.Fprintf(w, "%*s", n, "")`: a negative width is taken as the `-`
(left-justify) flag with the corresponding positive width, so the empty
string is padded to `|n|` spaces in every case. -/
def padWidth (n : Int) : String := ⟨List.replicate n.natAbs ' '⟩

/-- The header line of `Change.String` (between the two rules, without the
trailing newline): `"%*s%s"` with width `titlePad = 1` for the left side,
then — only when the date rendered non-empty — `"%*s%s"` with width
`middlePad` for the right side. -/
def headerLine (c : Change) : String :=
  padWidth 1 ++ vsb c
    ++ (if 0 < (dsb c).utf8ByteSize then padWidth (middlePad c) ++ dsb c
        else "")

/-- The description block: each line indented by `"%*s"` with
`descPad = 2`. -/
def descLines (c : Change) : String :=
  String.join (c.Description.map fun line => "  " ++ line ++ "\n")

/-- `Change.String()`: validates the version (panicking — `none` — when it
is invalid), then rule, header, rule, and the indented description lines. -/
def ChangeString (c : Change) : Option String :=
  match Parse c.Version with
  | none => none
  | some _ =>
    some (horizLine ++ headerLine c ++ "\n" ++ horizLine ++ descLines c)

/-! ## Byte-length facts -/

theorem utf8ByteSize_append (a b : String) :
    (a ++ b).utf8ByteSize = a.utf8ByteSize + b.utf8ByteSize := by
  rcases a with ⟨la⟩
  rcases b with ⟨lb⟩
  rw [show ((⟨la⟩ : String) ++ (⟨lb⟩ : String)) = (⟨la ++ lb⟩ : String)
    from rfl]
  simp [String.utf8ByteSize_mk]

theorem utf8Len_replicate (k : Nat) (c : Char) (h : c.utf8Size = 1) :
    String.utf8Len (List.replicate k c) = k := by
  induction k with
  | zero => rfl
  | succ n ih => simp [List.replicate, ih, h]

theorem padWidth_utf8ByteSize (n : Int) :
    (padWidth n).utf8ByteSize = n.natAbs := by
  rw [padWidth, String.utf8ByteSize_mk, utf8Len_replicate _ _ (by decide)]

/-! ## Claim C1 -/

/-- C1 (amended): `ParseDate("20-Mar-9 17:45:23")` succeeds through the
two-digit-year date format `06-Jan-2` paired with time format `15:04:05`,
reading the string as 9 March 2020, 17:45:23 (not 20 March 2009): Go's
two-digit year `06` consumes `20` and the day follows the month. -/
theorem parseDate_example :
    ParseDate "20-Mar-9 17:45:23"
      = some ⟨2020, 3, 9, 17, 45, 23, "UTC", 0⟩ := by decide

/-- C1 as frozen is false: the parsed calendar date is not 2009-03-20. -/
theorem parseDate_example_counterexample :
    (ParseDate "20-Mar-9 17:45:23").map (fun t => (t.year, t.month, t.day))
      ≠ some (2009, 3, 20) := by decide

/-! ## Claim C6 -/

/-- C6 (amended): the third tier attempts exactly the ten standard formats
ANSI C, Unix, **Ruby**, RFC-822, RFC-822 numeric-zone, RFC-850, RFC-1123,
RFC-1123 numeric-zone, RFC-3339 and RFC-3339 nanosecond, in this order (the
frozen claim omits Ruby's `time.RubyDate`); and a non-empty input on which
all three tiers fail yields no value. -/
theorem stdFormat_spec :
    stdFormat = ["Mon Jan _2 15:04:05 2006",
      "Mon Jan _2 15:04:05 MST 2006",
      "Mon Jan 02 15:04:05 -0700 2006",
      "02 Jan 06 15:04 MST",
      "02 Jan 06 15:04 -0700",
      "Monday, 02-Jan-06 15:04:05 MST",
      "Mon, 02 Jan 2006 15:04:05 MST",
      "Mon, 02 Jan 2006 15:04:05 -0700",
      "2006-01-02T15:04:05Z07:00",
      "2006-01-02T15:04:05.999999999Z07:00"]
  ∧ ∀ s : String, s ≠ "" → tier1 s = none → tier2 s = none →
      tier3 s = none → ParseDate s = none := by
  refine ⟨rfl, fun s h1 h2 h3 h4 => ?_⟩
  rw [ParseDate, if_pos h1, h2, h3, h4]
  rfl

/-- Closed instance of C6's no-match conjunct at `"not a date"`. -/
theorem stdFormat_spec_witness : ParseDate "not a date" = none :=
  stdFormat_spec.2 "not a date" (by decide) (by decide) (by decide)
    (by decide)

/-- C6 as frozen is false: the tier-3 list is not the claimed nine-element
list — it also contains `time.RubyDate` at position 2. -/
theorem stdFormat_counterexample :
    stdFormat.get? 2 = some "Mon Jan 02 15:04:05 -0700 2006"
  ∧ stdFormat ≠ ["Mon Jan _2 15:04:05 2006",
      "Mon Jan _2 15:04:05 MST 2006",
      "02 Jan 06 15:04 MST",
      "02 Jan 06 15:04 -0700",
      "Monday, 02-Jan-06 15:04:05 MST",
      "Mon, 02 Jan 2006 15:04:05 MST",
      "Mon, 02 Jan 2006 15:04:05 -0700",
      "2006-01-02T15:04:05Z07:00",
      "2006-01-02T15:04:05.999999999Z07:00"] := by decide

/-! ## Claim C4 -/

/-- A successfully parsed date renders non-empty under `DateTimeFormat`
(its first chunk is a three-letter weekday name). -/
theorem dsb_pos {c : Change} {t : GoTime} (h : ParseDate c.Date = some t) :
    0 < (dsb c).utf8ByteSize := by
  have hdsb : dsb c = formatGo (toks DateTimeFormat) t := by
    simp only [dsb, h]
  rw [hdsb]
  rw [show toks DateTimeFormat = Tok.WeekDay :: toksF 28
    ", 02 Jan 2006 15:04:05 MST".data from rfl]
  rw [show formatGo (Tok.WeekDay :: toksF 28 ", 02 Jan 2006 15:04:05 MST".data)
      t = formatTok t Tok.WeekDay
        ++ formatGo (toksF 28 ", 02 Jan 2006 15:04:05 MST".data) t from rfl,
    utf8ByteSize_append]
  have h7 : weekday t.year t.month t.day < 7 := by
    apply Nat.mod_lt
    norm_num
  have hall : ∀ w, w < 7 → 0 < (shortDayNames.getD w "").utf8ByteSize := by
    decide
  have hp := hall _ h7
  have he : formatTok t Tok.WeekDay
      = shortDayNames.getD (weekday t.year t.month t.day) "" := rfl
  rw [he]
  omega

/-- C4 (amended): when the date parses, the header line is one space, the
left-hand text, `|middlePad|` spaces, then the date; when `middlePad` is
non-negative the line is 79 bytes, so the left text starts at column 2 and
the date ends at column 79; but when `middlePad` is negative, `fmt`'s
`"%*s"` treats the negative width as a left-justify flag with positive
width, so a non-empty run of `|middlePad|` padding spaces is still inserted
— the fields do not become adjacent. -/
theorem headerLine_spec (c : Change) (t : GoTime)
    (hd : ParseDate c.Date = some t) :
    headerLine c = " " ++ vsb c ++ padWidth (middlePad c) ++ dsb c
  ∧ (0 ≤ middlePad c → (headerLine c).utf8ByteSize = 79)
  ∧ (middlePad c < 0 →
      (padWidth (middlePad c)).utf8ByteSize = (middlePad c).natAbs
      ∧ (middlePad c).natAbs ≠ 0) := by
  have hpos := dsb_pos hd
  have hline : headerLine c = " " ++ vsb c ++ padWidth (middlePad c)
      ++ dsb c := by
    rw [headerLine, if_pos hpos]
    apply String.ext
    simp [show (padWidth 1).data = [' '] from by decide]
  refine ⟨hline, fun hmp => ?_, fun hmp => ⟨padWidth_utf8ByteSize _, ?_⟩⟩
  · rw [hline, utf8ByteSize_append, utf8ByteSize_append, utf8ByteSize_append,
      padWidth_utf8ByteSize]
    have hmid : middlePad c
        = 80 - (((vsb c).utf8ByteSize + 1 : Nat) + ((dsb c).utf8ByteSize + 1 : Nat) : Nat) := rfl
    rw [hmid] at hmp ⊢
    have h1 : (" " : String).utf8ByteSize = 1 := by decide
    rw [h1]
    omega
  · have hmid : middlePad c
        = 80 - (((vsb c).utf8ByteSize + 1 : Nat) + ((dsb c).utf8ByteSize + 1 : Nat) : Nat) := rfl
    rw [hmid] at hmp ⊢
    omega

/-- Closed instances of C4: the normal case ends the date at column 79, and
an over-long left side yields a negative `middlePad` whose absolute value of
spaces is still inserted. -/
theorem headerLine_spec_witness :
    (headerLine ⟨"", "0.1.0", "", "Feb 26, 2020", []⟩).utf8ByteSize = 79
  ∧ (padWidth (middlePad ⟨"", "1.2.3",
      "aaaaaaaaaaaaaaaaaaaaaaaaaaaaaaaaaaaaaaaaaaaaaaaaaaaaaaaaaaaa",
      "Feb 26, 2020", []⟩)).utf8ByteSize
      = (middlePad ⟨"", "1.2.3",
      "aaaaaaaaaaaaaaaaaaaaaaaaaaaaaaaaaaaaaaaaaaaaaaaaaaaaaaaaaaaa",
      "Feb 26, 2020", []⟩).natAbs
  ∧ (middlePad ⟨"", "1.2.3",
      "aaaaaaaaaaaaaaaaaaaaaaaaaaaaaaaaaaaaaaaaaaaaaaaaaaaaaaaaaaaa",
      "Feb 26, 2020", []⟩).natAbs ≠ 0 := by
  refine ⟨?_, ?_, ?_⟩
  · exact (headerLine_spec ⟨"", "0.1.0", "", "Feb 26, 2020", []⟩
      ⟨2020, 2, 26, 0, 0, 0, "UTC", 0⟩ (by decide)).2.1 (by decide)
  · exact ((headerLine_spec ⟨"", "1.2.3",
      "aaaaaaaaaaaaaaaaaaaaaaaaaaaaaaaaaaaaaaaaaaaaaaaaaaaaaaaaaaaa",
      "Feb 26, 2020", []⟩ ⟨2020, 2, 26, 0, 0, 0, "UTC", 0⟩
      (by decide)).2.2 (by decide)).1
  · exact ((headerLine_spec ⟨"", "1.2.3",
      "aaaaaaaaaaaaaaaaaaaaaaaaaaaaaaaaaaaaaaaaaaaaaaaaaaaaaaaaaaaa",
      "Feb 26, 2020", []⟩ ⟨2020, 2, 26, 0, 0, 0, "UTC", 0⟩
      (by decide)).2.2 (by decide)).2

/-- C4 as frozen is false: with a parseable date and an over-long left side
the computed padding is negative, yet the fields are not adjacent — padding
spaces are inserted, and the date does not end at column 79. -/
theorem headerLine_counterexample :
    middlePad ⟨"", "1.2.3",
      "aaaaaaaaaaaaaaaaaaaaaaaaaaaaaaaaaaaaaaaaaaaaaaaaaaaaaaaaaaaa",
      "Feb 26, 2020", []⟩ < 0
  ∧ (ParseDate "Feb 26, 2020").isSome = true
  ∧ headerLine ⟨"", "1.2.3",
      "aaaaaaaaaaaaaaaaaaaaaaaaaaaaaaaaaaaaaaaaaaaaaaaaaaaaaaaaaaaa",
      "Feb 26, 2020", []⟩
    ≠ " " ++ vsb ⟨"", "1.2.3",
      "aaaaaaaaaaaaaaaaaaaaaaaaaaaaaaaaaaaaaaaaaaaaaaaaaaaaaaaaaaaa",
      "Feb 26, 2020", []⟩ ++ dsb ⟨"", "1.2.3",
      "aaaaaaaaaaaaaaaaaaaaaaaaaaaaaaaaaaaaaaaaaaaaaaaaaaaaaaaaaaaa",
      "Feb 26, 2020", []⟩
  ∧ (headerLine ⟨"", "1.2.3",
      "aaaaaaaaaaaaaaaaaaaaaaaaaaaaaaaaaaaaaaaaaaaaaaaaaaaaaaaaaaaa",
      "Feb 26, 2020", []⟩).utf8ByteSize ≠ 79 := by decide

/-! ## Claim C5 -/

/-- C5 (amended): every `Change.String` output is rule, header, newline,
rule, description block, where the horizontal rule consists of 80
repetitions of U+2015 (HORIZONTAL BAR — not U+2501) followed by a newline. -/
theorem changeString_rules (c : Change) (s : String)
    (h : ChangeString c = some s) :
    s = horizLine ++ headerLine c ++ "\n" ++ horizLine ++ descLines c
  ∧ horizLine = (⟨List.replicate 80 (Char.ofNat 0x2015)⟩ : String) ++ "\n" := by
  constructor
  · unfold ChangeString at h
    split at h
    · exact absurd h (by simp)
    · rw [Option.some.injEq] at h
      rw [← h]
  · decide

/-- Closed instance of C5 at a concrete entry. -/
theorem changeString_rules_witness :
    horizLine ++ headerLine ⟨"", "1.2.3", "", "", []⟩ ++ "\n" ++ horizLine
        ++ descLines ⟨"", "1.2.3", "", "", []⟩
      = horizLine ++ headerLine ⟨"", "1.2.3", "", "", []⟩ ++ "\n" ++ horizLine
        ++ descLines ⟨"", "1.2.3", "", "", []⟩
  ∧ horizLine = (⟨List.replicate 80 (Char.ofNat 0x2015)⟩ : String) ++ "\n" :=
  changeString_rules ⟨"", "1.2.3", "", "", []⟩ _ (by decide)

/-- C5 as frozen is false: the first 81 characters of a produced block are
80 copies of U+2015 and a newline, and U+2015 is not U+2501. -/
theorem changeString_rules_counterexample :
    (ChangeString ⟨"", "1.2.3", "", "", []⟩).map (fun s => s.data.take 81)
      = some (List.replicate 80 (Char.ofNat 0x2015) ++ ['\n'])
  ∧ (ChangeString ⟨"", "1.2.3", "", "", []⟩).map (fun s => s.data.take 81)
      ≠ some (List.replicate 80 (Char.ofNat 0x2501) ++ ['\n']) := by decide

/-! ## Claim C9 -/

/-- C9: a non-empty title is rendered as `" - "` followed by the Go `%q`
quotation of the title — wrapped in double quotes with interior quotes and
backslashes escaped — and the quoting does not depend on whether the entry
carries a package name (the package only contributes its own prefix). -/
theorem title_quoted (c : Change) (h : c.Title ≠ "") :
    vsb c = (if c.Package ≠ "" then c.Package ++ " " else "")
      ++ "version " ++ c.Version ++ (" - " ++ goQuote c.Title)
  ∧ goQuote c.Title
      = "\"" ++ (⟨c.Title.data.flatMap quoteChar⟩ : String) ++ "\""
  ∧ quoteChar '"' = ['\\', '"'] ∧ quoteChar '\\' = ['\\', '\\'] := by
  refine ⟨?_, ?_, by decide, by decide⟩
  · rw [vsb, if_pos h]
  · apply String.ext
    simp [goQuote]

/-- Closed instance of C9 with and without a package name, on a title
containing a quote and a backslash. -/
theorem title_quoted_witness :
    vsb ⟨"pkg", "1.2.3", "a \"b\" \\ c", "", []⟩
      = "pkg " ++ "version " ++ "1.2.3"
        ++ (" - " ++ goQuote "a \"b\" \\ c")
  ∧ vsb ⟨"", "1.2.3", "a \"b\" \\ c", "", []⟩
      = "" ++ "version " ++ "1.2.3" ++ (" - " ++ goQuote "a \"b\" \\ c")
  ∧ goQuote "a \"b\" \\ c" = "\"a \\\"b\\\" \\\\ c\"" := by
  refine ⟨?_, ?_, by decide⟩
  · have h := (title_quoted ⟨"pkg", "1.2.3", "a \"b\" \\ c", "", []⟩
      (by decide)).1
    rw [h]
    decide
  · have h := (title_quoted ⟨"", "1.2.3", "a \"b\" \\ c", "", []⟩
      (by decide)).1
    rw [h]
    decide

end Version
